import Mathlib

/-!
# Task manager (`src/app/page.js`): state machine and due-date predicates

A shallow embedding of the `TodoApp` component of `src/app/page.js`.

* The React state cells (`useState`) become the fields of `State`.
* Every event handler becomes a pure function `State → State`: a handler reads
  the cells of the current render and schedules new values for some of them,
  which is one atomic transition.
* Clock readings (`Date.now()`, `new Date()`) are explicit arguments.
* JavaScript built-ins used by the handlers (`String.prototype.trim`,
  `Array.prototype.find/filter/map`, `Date.prototype.setHours/setDate/getDate`)
  are modelled after ECMA-262; the local time zone is a `Zone`, which gives
  the offset from UTC in force at each instant, so that daylight-saving
  changes are covered; `Zone.fixed` is a zone whose offset never changes.
-/

namespace TodoApp

/-! ## JavaScript strings -/

/-- ECMA-262 `WhiteSpace` and `LineTerminator` code points, the characters
`String.prototype.trim` strips: TAB, LF, VT, FF, CR, SP, NBSP, the other
members of category Zs, LS, PS and ZWNBSP. -/
def isJsWhiteSpace (c : Char) : Bool :=
  c.toNat == 9 || c.toNat == 10 || c.toNat == 11 || c.toNat == 12 || c.toNat == 13 ||
  c.toNat == 32 || c.toNat == 160 || c.toNat == 5760 ||
  (decide (8192 ≤ c.toNat) && decide (c.toNat ≤ 8202)) ||
  c.toNat == 8232 || c.toNat == 8233 || c.toNat == 8239 || c.toNat == 8287 ||
  c.toNat == 12288 || c.toNat == 65279

/-- `String.prototype.trim` on a list of characters: white space is removed
from both ends. -/
def trimChars (cs : List Char) : List Char :=
  ((cs.dropWhile isJsWhiteSpace).reverse.dropWhile isJsWhiteSpace).reverse

/-- `str.trim()`. -/
def jsTrim (str : String) : String := ⟨trimChars str.data⟩

/-- Truthiness of a JavaScript string: every string but the empty one. -/
def jsTruthy (str : String) : Bool := !str.data.isEmpty

/-- `str || null`: the empty string is falsy and gives `null`. -/
def orNull (str : String) : Option String :=
  if jsTruthy str then some str else none

/-! ## Data model -/

/-- A task object as built in `handleAddTask` (lines 52-58). `id` is the value
of `Date.now()`, `createdAt` the time value of `new Date()`. -/
structure Task where
  id : Int
  text : String
  completed : Bool
  createdAt : Int
  dueDate : Option String
  deriving DecidableEq, Repr

/-- The state cells of `TodoApp` (lines 8-14). `fadeIn` only drives a CSS
class and is left out. `deletedTask` is `none` for `null` and `undefined`. -/
structure State where
  tasks : List Task
  newTask : String
  dueDate : String
  editingTask : Option Int
  editText : String
  deletedTask : Option Task
  showUndo : Bool
  deriving DecidableEq, Repr

/-- The state of the first render with nothing in `localStorage`. -/
def State.init : State :=
  { tasks := [], newTask := "", dueDate := "", editingTask := none,
    editText := "", deletedTask := none, showUndo := false }

/-! ## Derived views (lines 45-46) -/

/-- Line 45: `tasks.filter(task => !task.completed)`. -/
def activeTasks (s : State) : List Task := s.tasks.filter (fun task => !task.completed)

/-- Line 46: `tasks.filter(task => task.completed)`. -/
def completedTasks (s : State) : List Task := s.tasks.filter (fun task => task.completed)

/-! ## Event handlers -/

/-- Line 158: `onChange` of the text input. -/
def setNewTask (v : String) (s : State) : State := { s with newTask := v }

/-- Line 167: `onChange` of the date input. -/
def setDueDate (v : String) (s : State) : State := { s with dueDate := v }

/-- Lines 49-64. `now` is the value of `Date.now()`, `created` the time value
of `new Date()`. -/
def handleAddTask (now created : Int) (s : State) : State :=
  if jsTruthy (jsTrim s.newTask) then
    { s with
      tasks := s.tasks ++ [{ id := now, text := s.newTask, completed := false,
                             createdAt := created, dueDate := orNull s.dueDate }]
      newTask := ""
      dueDate := "" }
  else s

/-- Lines 67-71. -/
def toggleComplete (id : Int) (s : State) : State :=
  { s with
    tasks := s.tasks.map
      (fun task => if task.id = id then { task with completed := !task.completed } else task) }

/-- Lines 74-79. `find` returns the first task with the id (or `undefined`),
`filter` drops every task with the id. -/
def deleteTask (id : Int) (s : State) : State :=
  { s with
    deletedTask := s.tasks.find? (fun task => decide (task.id = id))
    tasks := s.tasks.filter (fun task => decide (task.id ≠ id))
    showUndo := true }

/-- Lines 82-88. -/
def undoDelete (s : State) : State :=
  match s.deletedTask with
  | some d => { s with tasks := s.tasks ++ [d], showUndo := false, deletedTask := none }
  | none => s

/-- Lines 91-94. -/
def startEdit (task : Task) (s : State) : State :=
  { s with editingTask := some task.id, editText := task.text }

/-- Line 205: `onChange` of the edit input. -/
def setEditText (v : String) (s : State) : State := { s with editText := v }

/-- Lines 97-104. `task.id === editingTask` is false for every task when
`editingTask` is `null`. -/
def saveEdit (s : State) : State :=
  { (if jsTruthy (jsTrim s.editText) then
      { s with
        tasks := s.tasks.map
          (fun task => if some task.id = s.editingTask then { task with text := s.editText }
                       else task) }
     else s) with
    editingTask := none }

/-- Lines 36-39: the callback of the 5000 ms timer started when `showUndo`
becomes true. -/
def undoTimerExpired (s : State) : State :=
  { s with showUndo := false, deletedTask := none }

/-- Line 306: the close button of the undo notification. -/
def dismissUndo (s : State) : State := { s with showUndo := false }

/-! ## The operations of the task store, as sequences of handler calls -/

/-- `add(text, dueDate)`: fill the two inputs, submit the form. -/
def add (text due : String) (now created : Int) (s : State) : State :=
  handleAddTask now created (setDueDate due (setNewTask text s))

/-- `edit(id, newText)`: open the editor on a task with that id, type the new
text, save. -/
def edit (task : Task) (newText : String) (s : State) : State :=
  saveEdit (setEditText newText (startEdit task s))

/-- Everything that can happen to the component. -/
inductive Event where
  | setNewTask (v : String)
  | setDueDate (v : String)
  | submit (now created : Int)
  | toggle (id : Int)
  | delete (id : Int)
  | undo
  | startEdit (task : Task)
  | setEditText (v : String)
  | saveEdit
  | undoTimer
  | dismissUndo
  deriving DecidableEq, Repr

/-- One transition. -/
def step (s : State) : Event → State
  | .setNewTask v => setNewTask v s
  | .setDueDate v => setDueDate v s
  | .submit now created => handleAddTask now created s
  | .toggle id => toggleComplete id s
  | .delete id => deleteTask id s
  | .undo => undoDelete s
  | .startEdit task => startEdit task s
  | .setEditText v => setEditText v s
  | .saveEdit => saveEdit s
  | .undoTimer => undoTimerExpired s
  | .dismissUndo => dismissUndo s

/-- The state after a sequence of events. -/
def run (s : State) (es : List Event) : State := es.foldl step s

/-- The value `Date.now()` returned to an event: only a form submission
reads it. -/
def submitTime : Event → List Int
  | .submit now _ => [now]
  | _ => []

/-- The values `Date.now()` returned to the form submissions of a trace. -/
def submitTimes : List Event → List Int
  | [] => []
  | e :: es => submitTime e ++ submitTimes es

/-- A task is well formed when its text is non-empty after trimming. -/
def textOk (t : Task) : Prop := jsTruthy (jsTrim t.text) = true

/-- The ids held by the store: those of the task sequence, then that of the
last deleted task. -/
def storeIds (s : State) : List Int :=
  (s.tasks ++ s.deletedTask.toList).map Task.id

/-- Every task of the sequence, and the last deleted one when there is one,
has a text that is non-empty after trimming. -/
def StoreTextOk (s : State) : Prop :=
  (∀ t ∈ s.tasks, textOk t) ∧ ∀ t, s.deletedTask = some t → textOk t

/-! ## Concrete traces used below -/

/-- Two tasks typed and submitted within the same millisecond of the clock. -/
def twoAddsSameMillisecond : List Event :=
  [.setNewTask "a", .submit 1 1, .setNewTask "b", .submit 1 1]

/-- The first task of `twoAddsSameMillisecond`. -/
def taskA : Task :=
  { id := 1, text := "a", completed := false, createdAt := 1, dueDate := none }

/-- The second task of `twoAddsSameMillisecond`. -/
def taskB : Task :=
  { id := 1, text := "b", completed := false, createdAt := 1, dueDate := none }

/-- Two tasks added at different times, the first one then deleted. -/
def addTwoDeleteFirst : List Event :=
  [.setNewTask "a", .submit 1 1, .setNewTask "c", .submit 2 2, .delete 1]

/-- The second task of `addTwoDeleteFirst`. -/
def taskC : Task :=
  { id := 2, text := "c", completed := false, createdAt := 2, dueDate := none }

/-! ## Dates (ECMA-262, section "Date Objects") -/

/-- Milliseconds in a day. -/
def msPerDay : Int := 86400000

/-- `Day(t)`: the day number of a time value (floor division). -/
def Day (t : Int) : Int := t / msPerDay

/-- `TimeWithinDay(t)`. -/
def TimeWithinDay (t : Int) : Int := t % msPerDay

/-- `MakeTime(hour, min, sec, ms)`. -/
def MakeTime (hour min sec ms : Int) : Int :=
  hour * 3600000 + min * 60000 + sec * 1000 + ms

/-- `MakeDate(day, time)`. -/
def MakeDate (day time : Int) : Int := day * msPerDay + time

/-- The local time zone, in milliseconds to add to UTC. `offsetAt t` is
`LocalTZA(t, true)`, the offset in force at the time value `t`;
`offsetOfLocal t` is `LocalTZA(t, false)`, the offset with which the local
time `t` is read (a local time that a clock change skips or repeats is read
with the offset in force before the change). -/
structure Zone where
  offsetAt : Int → Int
  offsetOfLocal : Int → Int

/-- A zone whose offset from UTC is always `tza` milliseconds. -/
def Zone.fixed (tza : Int) : Zone :=
  { offsetAt := fun _ => tza, offsetOfLocal := fun _ => tza }

/-- America/New_York for the instants of the year 2024: five hours behind
UTC, four hours behind from 2024-03-10 07:00 UTC (local 02:00, read as 03:00)
until 2024-11-03 06:00 UTC (local 02:00, read as 01:00). -/
def newYork2024 : Zone :=
  { offsetAt := fun t =>
      if 1710054000000 ≤ t ∧ t < 1730613600000 then -14400000 else -18000000
    offsetOfLocal := fun t =>
      if 1710039600000 ≤ t ∧ t < 1730599200000 then -14400000 else -18000000 }

/-- `LocalTime(t)`: the local time of a time value. -/
def LocalTime (z : Zone) (t : Int) : Int := t + z.offsetAt t

/-- `UTC(t)`: the time value of a local time. -/
def UTC (z : Zone) (t : Int) : Int := t - z.offsetOfLocal t

/-- `Date.prototype.setHours(hour, min, sec, ms)`: the new time value. -/
def setHours (z : Zone) (t hour min sec ms : Int) : Int :=
  UTC z (MakeDate (Day (LocalTime z t)) (MakeTime hour min sec ms))

/-- `Date.prototype.getDate()`: the day of the month of the local time.
`monthStart d` is the day number of the first day of the month that holds day
`d` (the Gregorian calendar of ECMA-262, taken as a parameter). -/
def getDate (monthStart : Int → Int) (z : Zone) (t : Int) : Int :=
  Day (LocalTime z t) - monthStart (Day (LocalTime z t)) + 1

/-- `Date.prototype.setDate(date)`: `MakeDay(year, month, date)` is the first
day of the month plus `date - 1`, the time within the day is kept. -/
def setDate (monthStart : Int → Int) (z : Zone) (t date : Int) : Int :=
  UTC z (MakeDate (monthStart (Day (LocalTime z t)) + date - 1)
    (TimeWithinDay (LocalTime z t)))

/-- The time value `new Date(str)` has for the date-only string
`YYYY-MM-DD` of the calendar day `day` (days since 1970-01-01): date-only
forms are read as UTC midnight. These are the strings a date input yields. -/
def dateOnly (day : Int) : Option Int := some (day * msPerDay)

/-- Lines 118-127. `due` is the time value of `new Date(dueDate)`, `none`
when `dueDate` is falsy (also standing for an unreadable string, whose NaN
time value fails both comparisons). `now` is the clock value read by
`new Date()` on line 122, `now2` the one read on line 123 for
`twoDaysFromNow`. -/
def isDueSoon (monthStart : Int → Int) (z : Zone) (due : Option Int) (now now2 : Int) :
    Bool :=
  match due with
  | none => false
  | some d =>
    let twoDaysFromNow := setDate monthStart z now2 (getDate monthStart z now + 2)
    decide (d ≤ twoDaysFromNow) && decide (d ≥ now)

/-- Lines 130-138. `due` as in `isDueSoon`, `now` the clock value read on
line 134. -/
def isOverdue (z : Zone) (due : Option Int) (now : Int) : Bool :=
  match due with
  | none => false
  | some d => decide (setHours z d 23 59 59 999 < now)

/-- The last millisecond (23:59:59.999 local time) of calendar day `day`. -/
def endOfDay (z : Zone) (day : Int) : Int :=
  UTC z (MakeDate day (MakeTime 23 59 59 999))

/-- The first millisecond (00:00:00.000 local time) of calendar day `day`. -/
def startOfDay (z : Zone) (day : Int) : Int :=
  UTC z (MakeDate day (MakeTime 0 0 0 0))

end TodoApp

namespace TodoApp

/-! ## Adding a task -/

theorem filter_append_singleton (p : Task → Bool) (l : List Task) (t : Task) :
    (l ++ [t]).filter p = l.filter p ++ (if p t then [t] else []) := by
  rw [List.filter_append]
  by_cases h : p t = true <;> simp [List.filter, h]

/-- C1. `add(t, dueDate)` with `t` non-empty after trimming appends exactly
one task, with `completed = false`, to the end of the sequence; the number of
active tasks grows by one and the number of completed tasks stays; with `t`
empty after trimming (such as `""` or three blanks) the sequence is unchanged. -/
theorem add_spec (s : State) (text due : String) (now created : Int) :
    (jsTruthy (jsTrim text) = true →
      (add text due now created s).tasks =
          s.tasks ++ [{ id := now, text := text, completed := false,
                        createdAt := created, dueDate := orNull due }] ∧
        (activeTasks (add text due now created s)).length = (activeTasks s).length + 1 ∧
        (completedTasks (add text due now created s)).length = (completedTasks s).length) ∧
    (jsTruthy (jsTrim text) = false → (add text due now created s).tasks = s.tasks) ∧
    (add "" due now created s).tasks = s.tasks ∧
    (add "   " due now created s).tasks = s.tasks := by
  refine ⟨fun h => ?_, fun h => ?_, ?_, ?_⟩
  · have e : (add text due now created s).tasks =
        s.tasks ++ [{ id := now, text := text, completed := false,
                      createdAt := created, dueDate := orNull due }] := by
      simp [add, handleAddTask, setDueDate, setNewTask, h]
    refine ⟨e, ?_, ?_⟩
    · simp [activeTasks, e, filter_append_singleton]
    · simp [completedTasks, e, filter_append_singleton]
  · simp [add, handleAddTask, setDueDate, setNewTask, h]
  · have h : jsTruthy (jsTrim "") = false := by decide
    simp [add, handleAddTask, setDueDate, setNewTask, h]
  · have h : jsTruthy (jsTrim "   ") = false := by decide
    simp [add, handleAddTask, setDueDate, setNewTask, h]

/-- Instance of `add_spec`: the scenario of the specification, started from
the empty store. -/
theorem add_spec_witness :
    (add "Buy milk" "2024-01-10" 1704844800000 1704844800000 State.init).tasks =
        [{ id := 1704844800000, text := "Buy milk", completed := false,
           createdAt := 1704844800000, dueDate := some "2024-01-10" }] ∧
      (activeTasks (add "Buy milk" "2024-01-10" 1704844800000 1704844800000
        State.init)).length = 1 := by
  have h := (add_spec State.init "Buy milk" "2024-01-10" 1704844800000 1704844800000).1
    (by decide)
  refine ⟨?_, ?_⟩
  · rw [h.1]; decide
  · rw [h.2.1]; decide

/-! ## Toggling -/

/-- C5. Two calls of `toggleComplete(id)` give back the state they started
from: every task, the one with that id included, has its original
`completed` value, every other field and its place in the sequence. -/
theorem toggleComplete_twice (s : State) (id : Int) :
    toggleComplete id (toggleComplete id s) = s ∧
      (toggleComplete id (toggleComplete id s)).tasks = s.tasks := by
  have e : toggleComplete id (toggleComplete id s) = s := by
    cases s with
    | mk tasks newTask dueDate editingTask editText deletedTask showUndo =>
      simp only [toggleComplete, List.map_map, State.mk.injEq, and_true, true_and]
      conv_rhs => rw [← List.map_id tasks]
      apply List.map_congr_left
      intro t _
      cases t with
      | mk tid text completed createdAt dueDate =>
        by_cases h : tid = id <;> simp [Function.comp, h]
  exact ⟨e, by rw [e]⟩

/-! ## Editing -/

/-- C6. `edit` with a new text that is non-empty after trimming puts the new
text on every task with the id under edit and changes nothing else: the
sequence has the same length and order, and each task keeps its id,
`completed`, `createdAt` and `dueDate`, and, if its id is another one, its
text. With a text empty after trimming the sequence is unchanged. In both
cases no task is under edit afterwards. -/
theorem edit_spec (s : State) (task : Task) (newText : String) :
    (jsTruthy (jsTrim newText) = true →
      List.Forall₂
        (fun t u => u.id = t.id ∧ u.completed = t.completed ∧ u.createdAt = t.createdAt ∧
          u.dueDate = t.dueDate ∧ u.text = if t.id = task.id then newText else t.text)
        s.tasks (edit task newText s).tasks) ∧
    (jsTruthy (jsTrim newText) = false → (edit task newText s).tasks = s.tasks) ∧
    (edit task newText s).editingTask = none := by
  refine ⟨fun h => ?_, fun h => ?_, ?_⟩
  · have e : (edit task newText s).tasks =
        s.tasks.map (fun t => if t.id = task.id then { t with text := newText } else t) := by
      simp [edit, saveEdit, setEditText, startEdit, h]
    rw [e, List.forall₂_map_right_iff, List.forall₂_same]
    intro t _
    by_cases ht : t.id = task.id <;> simp [ht]
  · simp [edit, saveEdit, setEditText, startEdit, h]
  · simp [edit, saveEdit]

/-! ## The undo window -/

/-- C7. Once the timer callback has run after a delete, `undo()` changes
nothing: the state stays as the callback left it, the task sequence is the
one the delete produced, and no task with the deleted id is in it. -/
theorem undo_after_window (s : State) (id : Int) :
    undoDelete (undoTimerExpired (deleteTask id s)) = undoTimerExpired (deleteTask id s) ∧
      (undoDelete (undoTimerExpired (deleteTask id s))).tasks = (deleteTask id s).tasks ∧
      ∀ t ∈ (undoDelete (undoTimerExpired (deleteTask id s))).tasks, t.id ≠ id := by
  refine ⟨by simp [undoDelete, undoTimerExpired], by simp [undoDelete, undoTimerExpired], ?_⟩
  intro t ht
  simp [undoDelete, undoTimerExpired, deleteTask] at ht
  exact ht.2

/-! ## Delete and undo -/

theorem find_first_of_not_mem (pre post : List Task) (t : Task)
    (h : ∀ u ∈ pre, u.id ≠ t.id) :
    (pre ++ t :: post).find? (fun task => decide (task.id = t.id)) = some t := by
  induction pre with
  | nil => simp
  | cons a pre ih =>
    have ha : a.id ≠ t.id := h a (by simp)
    have := ih (fun u hu => h u (by simp [hu]))
    simpa [List.find?, ha] using this

theorem filter_out_unique (pre post : List Task) (t : Task)
    (hpre : ∀ u ∈ pre, u.id ≠ t.id) (hpost : ∀ u ∈ post, u.id ≠ t.id) :
    (pre ++ t :: post).filter (fun task => decide (task.id ≠ t.id)) = pre ++ post := by
  rw [List.filter_append, List.filter_cons]
  have e1 : pre.filter (fun task => decide (task.id ≠ t.id)) = pre :=
    List.filter_eq_self.2 (fun u hu => by simpa using hpre u hu)
  have e2 : post.filter (fun task => decide (task.id ≠ t.id)) = post :=
    List.filter_eq_self.2 (fun u hu => by simpa using hpost u hu)
  rw [e1, e2]
  simp

/-- C2, as the code has it: when no other task of the sequence carries the
id, `delete(id)` of a task of the sequence followed at once by `undo()` gives
the original sequence with that task, equal in every field, moved to the end,
and `lastDeleted` is cleared. -/
theorem delete_then_undo (s : State) (pre post : List Task) (t : Task)
    (hs : s.tasks = pre ++ t :: post) (hu : ∀ u ∈ pre ++ post, u.id ≠ t.id) :
    (undoDelete (deleteTask t.id s)).tasks = pre ++ post ++ [t] ∧
      (undoDelete (deleteTask t.id s)).deletedTask = none := by
  have hpre : ∀ u ∈ pre, u.id ≠ t.id := fun u h => hu u (List.mem_append_left post h)
  have hpost : ∀ u ∈ post, u.id ≠ t.id := fun u h => hu u (List.mem_append_right pre h)
  have hf := find_first_of_not_mem pre post t hpre
  have hd := filter_out_unique pre post t hpre hpost
  simp only [undoDelete, deleteTask, hs, hf, hd]
  simp

/-- Instance of `delete_then_undo`: deleting the first of two tasks with
different ids and undoing moves it behind the second. -/
theorem delete_then_undo_witness :
    (undoDelete (deleteTask taskA.id
        { State.init with tasks := [taskA, taskC] })).tasks = [taskC, taskA] ∧
      (undoDelete (deleteTask taskA.id
        { State.init with tasks := [taskA, taskC] })).deletedTask = none :=
  delete_then_undo { State.init with tasks := [taskA, taskC] } [] [taskC] taskA rfl
    (by decide)

/-- C2 fails as stated: after two submissions within one millisecond the
store holds two tasks with id 1; `delete(1)` then `undo()` leaves only the
first of them, not the sequence with the first moved behind the second. -/
theorem delete_then_undo_counterexample :
    (run State.init twoAddsSameMillisecond).tasks = [] ++ taskA :: [taskB] ∧
      (undoDelete (deleteTask taskA.id (run State.init twoAddsSameMillisecond))).tasks
        = [taskA] ∧
      (undoDelete (deleteTask taskA.id (run State.init twoAddsSameMillisecond))).tasks
        ≠ [] ++ [taskB] ++ [taskA] := by
  decide

/-- C3, as the code has it: `delete(id)` with an id no task has leaves the
task sequence unchanged, but it overwrites `lastDeleted` with nothing and
shows the undo notification; an `undo()` after it restores nothing. -/
theorem delete_missing_id (s : State) (id : Int) (h : ∀ t ∈ s.tasks, t.id ≠ id) :
    (deleteTask id s).tasks = s.tasks ∧
      (deleteTask id s).deletedTask = none ∧
      (deleteTask id s).showUndo = true ∧
      undoDelete (deleteTask id s) = deleteTask id s := by
  have hf : s.tasks.find? (fun task => decide (task.id = id)) = none := by
    rw [List.find?_eq_none]
    intro t ht
    simpa using h t ht
  have hd : s.tasks.filter (fun task => decide (task.id ≠ id)) = s.tasks :=
    List.filter_eq_self.2 (fun t ht => by simpa using h t ht)
  simp only [deleteTask, undoDelete, hf, hd]
  simp

/-- Instance of `delete_missing_id`: id 99 in a store that holds one task
with id 2 and has the task with id 1 waiting in its undo window. -/
theorem delete_missing_id_witness :
    (deleteTask 99 (run State.init addTwoDeleteFirst)).tasks = [taskC] ∧
      (deleteTask 99 (run State.init addTwoDeleteFirst)).deletedTask = none := by
  have h := delete_missing_id (run State.init addTwoDeleteFirst) 99 (by decide)
  refine ⟨?_, h.2.1⟩
  rw [h.1]; decide

/-- C3 fails as stated: with the task of id 1 deleted and still restorable,
`delete(99)`, an id no task has, clears `lastDeleted`, and the `undo()` that
would have restored the task no longer does. -/
theorem delete_missing_id_counterexample :
    (∀ t ∈ (run State.init addTwoDeleteFirst).tasks, t.id ≠ 99) ∧
      (run State.init addTwoDeleteFirst).deletedTask = some taskA ∧
      (deleteTask 99 (run State.init addTwoDeleteFirst)).deletedTask
        ≠ (run State.init addTwoDeleteFirst).deletedTask ∧
      (undoDelete (run State.init addTwoDeleteFirst)).tasks = [taskC, taskA] ∧
      (undoDelete (deleteTask 99 (run State.init addTwoDeleteFirst))).tasks = [taskC] := by
  decide

/-! ## Invariant: no empty text -/

theorem init_textOk : StoreTextOk State.init := by
  constructor
  · intro t ht; simp [State.init] at ht
  · intro t ht; simp [State.init] at ht

theorem step_textOk (s : State) (e : Event) (h : StoreTextOk s) : StoreTextOk (step s e) := by
  obtain ⟨ht, hd⟩ := h
  cases e with
  | setNewTask v => exact ⟨ht, hd⟩
  | setDueDate v => exact ⟨ht, hd⟩
  | submit now created =>
    simp only [step, handleAddTask]
    by_cases hv : jsTruthy (jsTrim s.newTask) = true
    · rw [if_pos hv]
      refine ⟨?_, hd⟩
      intro t hmem
      rcases List.mem_append.1 hmem with h1 | h1
      · exact ht t h1
      · rw [List.mem_singleton] at h1
        subst h1
        exact hv
    · rw [if_neg hv]; exact ⟨ht, hd⟩
  | toggle id =>
    refine ⟨?_, hd⟩
    intro t hmem
    simp only [step, toggleComplete, List.mem_map] at hmem
    obtain ⟨u, hu, rfl⟩ := hmem
    have := ht u hu
    by_cases hi : u.id = id
    · rw [if_pos hi]; exact this
    · rw [if_neg hi]; exact this
  | delete id =>
    constructor
    · intro t hmem
      exact ht t (List.mem_of_mem_filter hmem)
    · intro t hsome
      exact ht t (List.mem_of_find?_eq_some hsome)
  | undo =>
    simp only [step, undoDelete]
    cases hdel : s.deletedTask with
    | none => exact ⟨ht, hd⟩
    | some d =>
      refine ⟨?_, ?_⟩
      · intro t hmem
        rcases List.mem_append.1 hmem with h1 | h1
        · exact ht t h1
        · rw [List.mem_singleton] at h1
          subst h1
          exact hd t hdel
      · intro t hsome; simp at hsome
  | startEdit task => exact ⟨ht, hd⟩
  | setEditText v => exact ⟨ht, hd⟩
  | saveEdit =>
    simp only [step, saveEdit]
    by_cases hv : jsTruthy (jsTrim s.editText) = true
    · rw [if_pos hv]
      refine ⟨?_, hd⟩
      intro t hmem
      simp only [List.mem_map] at hmem
      obtain ⟨u, hu, rfl⟩ := hmem
      by_cases hi : some u.id = s.editingTask
      · rw [if_pos hi]; exact hv
      · rw [if_neg hi]; exact ht u hu
    · rw [if_neg hv]; exact ⟨ht, hd⟩
  | undoTimer =>
    refine ⟨ht, ?_⟩
    intro t hsome
    simp [step, undoTimerExpired] at hsome
  | dismissUndo => exact ⟨ht, hd⟩

theorem run_textOk (es : List Event) : ∀ s : State, StoreTextOk s → StoreTextOk (run s es) := by
  induction es with
  | nil => intro s h; exact h
  | cons e es ih => intro s h; exact ih (step s e) (step_textOk s e h)

/-- C8. In every state reached from the empty store by any sequence of
events (typing, submitting, toggling, deleting, undoing, editing, the timer
callback, dismissing the notification), every task of the sequence and the
last deleted task, when set, has a text that is non-empty after trimming. -/
theorem text_never_empty (es : List Event) :
    (∀ t ∈ (run State.init es).tasks, jsTruthy (jsTrim t.text) = true) ∧
      ∀ t, (run State.init es).deletedTask = some t → jsTruthy (jsTrim t.text) = true :=
  run_textOk es State.init init_textOk

/-! ## Invariant: ids -/

theorem map_id_toggle (id : Int) (l : List Task) :
    (l.map (fun task => if task.id = id then { task with completed := !task.completed }
      else task)).map Task.id = l.map Task.id := by
  rw [List.map_map]
  apply List.map_congr_left
  intro t _
  by_cases h : t.id = id <;> simp [Function.comp, h]

theorem map_id_edit (e : Option Int) (txt : String) (l : List Task) :
    (l.map (fun task => if some task.id = e then { task with text := txt }
      else task)).map Task.id = l.map Task.id := by
  rw [List.map_map]
  apply List.map_congr_left
  intro t _
  by_cases h : some t.id = e <;> simp [Function.comp, h]

theorem storeIds_delete (id : Int) (s : State) (h : (s.tasks.map Task.id).Nodup) :
    (storeIds (deleteTask id s)).Nodup ∧
      ∀ i ∈ storeIds (deleteTask id s), i ∈ s.tasks.map Task.id := by
  have hsub : ((s.tasks.filter (fun task => decide (task.id ≠ id))).map Task.id).Nodup :=
    h.sublist ((List.filter_sublist s.tasks).map Task.id)
  cases hf : s.tasks.find? (fun task => decide (task.id = id)) with
  | none =>
    constructor
    · simpa only [storeIds, deleteTask, hf, Option.toList, List.append_nil] using hsub
    · intro i hi
      simp only [storeIds, deleteTask, hf, Option.toList, List.append_nil, List.mem_map] at hi
      obtain ⟨t, ht, rfl⟩ := hi
      exact List.mem_map_of_mem Task.id (List.mem_of_mem_filter ht)
  | some d =>
    have hd : d.id = id := by simpa using List.find?_some hf
    have hmem : d ∈ s.tasks := List.mem_of_find?_eq_some hf
    constructor
    · simp only [storeIds, deleteTask, hf, Option.toList, List.map_append, List.map_cons,
        List.map_nil]
      rw [List.nodup_append]
      refine ⟨hsub, List.nodup_singleton _, ?_⟩
      intro i hi hi2
      rw [List.mem_singleton] at hi2
      rw [List.mem_map] at hi
      obtain ⟨t, ht, rfl⟩ := hi
      have := (List.mem_filter.1 ht).2
      rw [hi2, hd] at this
      simp at this
    · intro i hi
      simp only [storeIds, deleteTask, hf, Option.toList, List.map_append, List.map_cons,
        List.map_nil, List.mem_append, List.mem_singleton, List.mem_map] at hi
      rcases hi with ⟨t, ht, rfl⟩ | rfl
      · exact List.mem_map_of_mem Task.id (List.mem_of_mem_filter ht)
      · exact List.mem_map_of_mem Task.id hmem

theorem tasks_ids_sublist (s : State) : (s.tasks.map Task.id).Sublist (storeIds s) := by
  simp only [storeIds, List.map_append]
  exact List.sublist_append_left _ _

/-- One transition keeps the ids of the store pairwise distinct, provided a
submission gets a clock value that is no id of the store; the ids after it
are ids before it or that clock value. -/
theorem step_storeIds (s : State) (e : Event) (h : (storeIds s).Nodup)
    (hfresh : ∀ i ∈ submitTime e, i ∉ storeIds s) :
    (storeIds (step s e)).Nodup ∧
      ∀ i ∈ storeIds (step s e), i ∈ storeIds s ∨ i ∈ submitTime e := by
  cases e with
  | setNewTask v => exact ⟨h, fun i hi => Or.inl hi⟩
  | setDueDate v => exact ⟨h, fun i hi => Or.inl hi⟩
  | submit now created =>
    simp only [step, handleAddTask]
    by_cases hv : jsTruthy (jsTrim s.newTask) = true
    · rw [if_pos hv]
      have hnow : now ∉ storeIds s := hfresh now (by simp [submitTime])
      have hperm : (storeIds { s with
          tasks := s.tasks ++ [{ id := now, text := s.newTask, completed := false,
                                 createdAt := created, dueDate := orNull s.dueDate }]
          newTask := ""
          dueDate := "" }).Perm (now :: storeIds s) := by
        simp only [storeIds, List.map_append, List.map_cons, List.map_nil,
          List.append_assoc, List.singleton_append]
        exact List.perm_middle
      refine ⟨hperm.nodup_iff.2 (List.nodup_cons.2 ⟨hnow, h⟩), ?_⟩
      intro i hi
      rcases List.mem_cons.1 (hperm.mem_iff.1 hi) with rfl | h1
      · exact Or.inr (by simp [submitTime])
      · exact Or.inl h1
    · rw [if_neg hv]; exact ⟨h, fun i hi => Or.inl hi⟩
  | toggle id =>
    have e1 : storeIds (step s (.toggle id)) = storeIds s := by
      simp only [step, toggleComplete, storeIds, List.map_append, map_id_toggle]
    rw [e1]; exact ⟨h, fun i hi => Or.inl hi⟩
  | delete id =>
    have h1 := storeIds_delete id s (h.sublist (tasks_ids_sublist s))
    exact ⟨h1.1, fun i hi => Or.inl ((tasks_ids_sublist s).subset (h1.2 i hi))⟩
  | undo =>
    have e1 : storeIds (step s .undo) = storeIds s := by
      simp only [step, undoDelete]
      cases hdel : s.deletedTask with
      | none => rfl
      | some d => simp [storeIds, hdel]
    rw [e1]; exact ⟨h, fun i hi => Or.inl hi⟩
  | startEdit task => exact ⟨h, fun i hi => Or.inl hi⟩
  | setEditText v => exact ⟨h, fun i hi => Or.inl hi⟩
  | saveEdit =>
    have e1 : storeIds (step s .saveEdit) = storeIds s := by
      simp only [step, saveEdit]
      by_cases hv : jsTruthy (jsTrim s.editText) = true
      · simp only [if_pos hv, storeIds, List.map_append, map_id_edit]
      · simp only [if_neg hv, storeIds]
    rw [e1]; exact ⟨h, fun i hi => Or.inl hi⟩
  | undoTimer =>
    have e1 : storeIds (step s .undoTimer) = s.tasks.map Task.id := by
      simp [step, undoTimerExpired, storeIds]
    rw [e1]
    exact ⟨h.sublist (tasks_ids_sublist s),
      fun i hi => Or.inl ((tasks_ids_sublist s).subset hi)⟩
  | dismissUndo => exact ⟨h, fun i hi => Or.inl hi⟩

theorem run_storeIds (es : List Event) :
    ∀ s : State, (storeIds s).Nodup → (submitTimes es).Nodup →
      (∀ i ∈ storeIds s, i ∉ submitTimes es) → (storeIds (run s es)).Nodup := by
  induction es with
  | nil => intro s h _ _; exact h
  | cons e es ih =>
    intro s h hn hdisj
    simp only [submitTimes, List.nodup_append] at hn
    obtain ⟨_, hn2, hd2⟩ := hn
    have hst := step_storeIds s e h
      (fun i hi hs => hdisj i hs (by simp [submitTimes, hi]))
    refine ih (step s e) hst.1 hn2 ?_
    intro i hi hi2
    rcases hst.2 i hi with h1 | h1
    · exact hdisj i h1 (by simp [submitTimes, hi2])
    · exact hd2 h1 hi2

/-- C4, as the code has it: when the clock values read by the form
submissions of a trace are pairwise distinct, every state reached from the
empty store has pairwise distinct ids in its task sequence, and the last
deleted task, when set, has an id that no task of the sequence has. -/
theorem ids_unique_of_distinct_clock (es : List Event) (h : (submitTimes es).Nodup) :
    ((run State.init es).tasks.map Task.id).Nodup ∧
      ∀ d, (run State.init es).deletedTask = some d →
        ∀ t ∈ (run State.init es).tasks, t.id ≠ d.id := by
  have hn : (storeIds (run State.init es)).Nodup :=
    run_storeIds es State.init (by simp [storeIds, State.init]) h
      (by intro i hi; simp [storeIds, State.init] at hi)
  refine ⟨hn.sublist (tasks_ids_sublist _), ?_⟩
  intro d hd t ht e
  simp only [storeIds, hd, Option.toList, List.map_append, List.map_cons, List.map_nil,
    List.nodup_append] at hn
  exact hn.2.2 (List.mem_map_of_mem Task.id ht) (by simp [e])

/-- Instance of `ids_unique_of_distinct_clock`: two submissions at clock
values 1 and 2, then a delete. -/
theorem ids_unique_of_distinct_clock_witness :
    ((run State.init addTwoDeleteFirst).tasks.map Task.id).Nodup ∧
      ∀ d, (run State.init addTwoDeleteFirst).deletedTask = some d →
        ∀ t ∈ (run State.init addTwoDeleteFirst).tasks, t.id ≠ d.id :=
  ids_unique_of_distinct_clock addTwoDeleteFirst (by decide)

/-- C4 fails as stated: two submissions that read the same clock value give
two tasks with the same id. -/
theorem ids_unique_counterexample :
    (run State.init twoAddsSameMillisecond).tasks = [taskA, taskB] ∧
      taskA.id = taskB.id ∧ taskA ≠ taskB ∧
      ¬ ((run State.init twoAddsSameMillisecond).tasks.map Task.id).Nodup := by
  decide

/-! ## Due dates -/

/-- With one clock value for both reads, setting the day of the month to the
current one plus two gives the same local time of day two calendar days
later, whatever the month layout. -/
theorem setDate_getDate (monthStart : Int → Int) (z : Zone) (now : Int) :
    setDate monthStart z now (getDate monthStart z now + 2) =
      UTC z (MakeDate (Day (LocalTime z now) + 2) (TimeWithinDay (LocalTime z now))) := by
  have h : monthStart (Day (LocalTime z now)) +
      (Day (LocalTime z now) - monthStart (Day (LocalTime z now)) + 1 + 2) - 1 =
      Day (LocalTime z now) + 2 := by omega
  simp only [setDate, getDate, h]

/-- In a zone of fixed offset, with one clock value for both reads, the upper
bound of `isDueSoon` is 48 hours after now. -/
theorem setDate_plus_two_fixed (monthStart : Int → Int) (tza now : Int) :
    setDate monthStart (Zone.fixed tza) now (getDate monthStart (Zone.fixed tza) now + 2) =
      now + 2 * msPerDay := by
  rw [setDate_getDate]
  simp only [UTC, MakeDate, Day, TimeWithinDay, LocalTime, msPerDay, Zone.fixed]
  have h := Int.ediv_add_emod (now + tza) 86400000
  ring_nf
  ring_nf at h
  omega

/-- In a zone of fixed offset, with one clock value for both reads,
`isDueSoon` is true exactly when the due time value lies in
`[now, now + 48 hours]`, both ends included. -/
theorem isDueSoon_fixed_zone (monthStart : Int → Int) (tza : Int) (due : Option Int)
    (now : Int) :
    isDueSoon monthStart (Zone.fixed tza) due now now = true ↔
      ∃ d, due = some d ∧ now ≤ d ∧ d ≤ now + 2 * msPerDay := by
  cases due with
  | none => simp [isDueSoon]
  | some d =>
    simp only [isDueSoon, setDate_plus_two_fixed, Bool.and_eq_true, decide_eq_true_eq,
      ge_iff_le, Option.some.injEq, exists_eq_left']
    exact And.comm

/-- Across the start of daylight saving the two calendar days are 47 hours:
in New York at 2024-03-08 19:30 local time the upper bound of `isDueSoon` is
2024-03-10 19:30 local time, and the date 2024-03-11 (day 19793), whose UTC
midnight is 47.5 hours ahead, is not due soon. -/
theorem isDueSoon_across_dst (monthStart : Int → Int) :
    setDate monthStart newYork2024 1709944200000
        (getDate monthStart newYork2024 1709944200000 + 2) =
      1709944200000 + 47 * 3600000 ∧
    isDueSoon monthStart newYork2024 (dateOnly 19793) 1709944200000 1709944200000 = false := by
  have h := setDate_getDate monthStart newYork2024 1709944200000
  have e : UTC newYork2024 (MakeDate (Day (LocalTime newYork2024 1709944200000) + 2)
      (TimeWithinDay (LocalTime newYork2024 1709944200000))) = 1710113400000 := by decide
  rw [e] at h
  refine ⟨by rw [h]; decide, ?_⟩
  simp only [isDueSoon, dateOnly, h]
  decide

/-- C10 fails on the code west of UTC. In a zone five hours behind UTC, at
20:00 local time of 2024-01-10 (day 19732), a task due the next day,
2024-01-11 (day 19733), is not reported due soon, whatever the second clock
read and the month layout, although that day starts in four hours and so
lies within the next two days: its date string is read as UTC midnight,
which is 19:00 local time of 2024-01-10, an hour before now. -/
theorem isDueSoon_tomorrow_west (monthStart : Int → Int) (now2 : Int) :
    Day (LocalTime (Zone.fixed (-18000000)) 1704934800000) + 1 = 19733 ∧
      1704934800000 ≤ startOfDay (Zone.fixed (-18000000)) 19733 ∧
      endOfDay (Zone.fixed (-18000000)) 19733 ≤ 1704934800000 + 2 * msPerDay ∧
      dateOnly 19733 = some (1704934800000 - 3600000) ∧
      isDueSoon monthStart (Zone.fixed (-18000000)) (dateOnly 19733) 1704934800000 now2
        = false := by
  refine ⟨by decide, by decide, by decide, by decide, ?_⟩
  have h : ¬ ((19733 : Int) * 86400000 ≥ 1704934800000) := by decide
  simp only [isDueSoon, dateOnly, msPerDay, h, decide_False, Bool.and_false]

/-- What `isOverdue` computes for a calendar date in a zone of fixed offset:
the end of the local day that holds UTC midnight of the date, which is day
`day + tza / msPerDay` (floor division): the date itself east of UTC, the day
before it west of UTC. -/
theorem isOverdue_dateOnly (tza day now : Int) :
    isOverdue (Zone.fixed tza) (dateOnly day) now = true ↔
      endOfDay (Zone.fixed tza) (day + tza / msPerDay) < now := by
  have h : (day * 86400000 + tza) / 86400000 = day + tza / 86400000 := by omega
  simp only [isOverdue, dateOnly, setHours, endOfDay, UTC, Day, LocalTime, msPerDay,
    Zone.fixed, decide_eq_true_eq, h]

/-- In a zone of fixed offset at or east of UTC (offset under a day)
`isOverdue` is true exactly when the end of the due day, local time, is
before now. -/
theorem isOverdue_east (tza day now : Int) (h0 : 0 ≤ tza) (h1 : tza < msPerDay) :
    isOverdue (Zone.fixed tza) (dateOnly day) now = true ↔
      endOfDay (Zone.fixed tza) day < now := by
  rw [isOverdue_dateOnly]
  have h : tza / msPerDay = 0 := Int.ediv_eq_zero_of_lt h0 h1
  rw [h, add_zero]

/-- On a day whose offset changes `setHours` uses the offset of the local
time it builds: in New York the end of 2024-03-10, reached from UTC midnight
of 2024-03-11, is 23:59:59.999 at four hours behind UTC. -/
theorem setHours_across_dst :
    setHours newYork2024 (19793 * msPerDay) 23 59 59 999 =
      19792 * msPerDay + 86399999 + 14400000 := by
  decide

/-- C9 fails on the code west of UTC. In a zone five hours behind UTC, at
noon local time of 2024-01-10 (day 19732), a task due 2024-01-10 is reported
overdue, although the end of that day, 23:59:59.999 local time, is still
ahead; the code compared with the end of 2024-01-09 instead. -/
theorem isOverdue_due_today_west :
    Day (LocalTime (Zone.fixed (-18000000)) 1704906000000) = 19732 ∧
      Day 1704906000000 = 19732 ∧
      ¬ endOfDay (Zone.fixed (-18000000)) 19732 < 1704906000000 ∧
      isOverdue (Zone.fixed (-18000000)) (dateOnly 19732) 1704906000000 = true ∧
      setHours (Zone.fixed (-18000000)) (19732 * msPerDay) 23 59 59 999 =
        endOfDay (Zone.fixed (-18000000)) 19731 := by
  decide

end TodoApp
